import Mathlib

/-!
# PhotonBlue.Ooz: the Kraken interop shim

Source: `src/PhotonBlue.Ooz/Kraken.cpp`.

```
int PhotonBlue::Ooz::Kraken::Decompress(array<uint8_t>^ src, const size_t src_len,
                                        array<uint8_t>^ dst, const size_t dst_len)
{
    const pin_ptr<const uint8_t> s = &src[0];
    const pin_ptr<uint8_t> d = &dst[0];
    return Kraken_Decompress(s, src_len, d, dst_len);
}
```

The embedding is explicit state passing.  Process memory is a map from byte
addresses to bytes, a managed array is a region of it, and the native routine
`Kraken_Decompress`, declared in `ooz.h` and defined outside this file, is a
parameter of the shim.  Every call of the native routine is appended to a log,
so that "is called exactly once, with these arguments" is a statement about
the final state.
-/

namespace PhotonBlue.Ooz

/-- Process memory: the byte stored at each address.  A byte (`uint8_t`) is a
natural number, below 256 in every concrete input; no arithmetic is done on
bytes, and a `size_t` length is a natural number that is only passed on. -/
abbrev Mem := Nat → Nat

/-- A managed `array<uint8_t>` object: where its element 0 lives and how many
elements it has.  Pinning keeps `base` fixed for the duration of the call, which
is why a single address per array is enough here. -/
structure ManagedArray where
  base : Nat
  length : Nat
  deriving DecidableEq, Repr

/-- The managed exceptions that evaluating `&arr[0]` can raise: the handle is
`nullptr`, or index 0 is not below the length of the array. -/
inductive ManagedException where
  | NullReference
  | IndexOutOfRange
  deriving DecidableEq, Repr

/-- One recorded call of the native routine: the four arguments it received. -/
structure NativeCall where
  src : Nat
  src_len : Nat
  dst : Nat
  dst_len : Nat
  deriving DecidableEq, Repr

/-- The state that a call of the shim can observe or change: memory, and the log
of calls made to the native routine so far. -/
structure World where
  mem : Mem
  calls : List NativeCall

/-- The type of `int Kraken_Decompress(const byte*, size_t, byte*, size_t)`:
from two addresses, two lengths and the memory to the returned `int` and the
memory it leaves behind. -/
abbrev NativeRoutine := Nat → Nat → Nat → Nat → Mem → Int × Mem

/-- The expression `&arr[i]` on a handle `array<uint8_t>^`: a null handle raises
`NullReference`, an index that is not below the length raises `IndexOutOfRange`,
otherwise the address of element `i`. -/
def elementAddress (arr : Option ManagedArray) (i : Nat) : Except ManagedException Nat :=
  match arr with
  | none => .error .NullReference
  | some a => if i < a.length then .ok (a.base + i) else .error .IndexOutOfRange

/-- The bytes stored at addresses `a, a+1, ..., a+n-1`. -/
def readBytes (mem : Mem) (a n : Nat) : List Nat :=
  (List.range n).map fun i => mem (a + i)

/-- The memory after storing the bytes `bs` at addresses `a, a+1, ...`. -/
def writeBytes (mem : Mem) (a : Nat) (bs : List Nat) : Mem :=
  fun x => if a ≤ x ∧ x < a + bs.length then bs.getD (x - a) 0 else mem x

/-- The elements of a managed array, as memory holds them. -/
def contents (mem : Mem) (arr : ManagedArray) : List Nat :=
  readBytes mem arr.base arr.length

namespace Kraken

/-- The shim `PhotonBlue::Ooz::Kraken::Decompress`.  Line 6 pins `&src[0]`,
line 7 pins `&dst[0]`, line 8 calls the native routine with the two pinned
addresses and the two lengths as the caller gave them, and returns its `int`.
An exception raised while pinning leaves the state as it was. -/
def Decompress (Kraken_Decompress : NativeRoutine)
    (src : Option ManagedArray) (src_len : Nat)
    (dst : Option ManagedArray) (dst_len : Nat)
    (w : World) : Except ManagedException Int × World :=
  match elementAddress src 0 with
  | .error e => (.error e, w)
  | .ok s =>
    match elementAddress dst 0 with
    | .error e => (.error e, w)
    | .ok d =>
      let r := Kraken_Decompress s src_len d dst_len w.mem
      (.ok r.1, { mem := r.2, calls := w.calls ++ [⟨s, src_len, d, dst_len⟩] })

end Kraken

/-! ## The decompression engine

`Kraken_Decompress` is declared in `../ooz/ooz.h`; neither that header nor the
definition of the routine is among the sources.  The definitions of this section
follow sections 3, 4, 6 and 7 of the specification.  The wire layout of a chunk
header and the entropy coding are left open there (section 9), so they are the
fields of a `Format`, and every theorem about the engine holds for every
`Format`. -/

/-- Modelled from the spec: the error taxonomy of section 7, missing with the
engine behind `Kraken_Decompress`. -/
inductive DecodeError where
  | MalformedHeader
  | EntropyDecodeError
  | InvalidBackReference
  | OutputOverflow
  | LengthMismatch
  | UnsupportedMethod
  deriving DecidableEq, Repr

/-- Modelled from the spec: the chunk methods of section 3 (raw copy,
entropy-coded, LZ+entropy, memcpy-fallback), missing with the engine. -/
inductive Method where
  | rawCopy
  | entropyCoded
  | lzEntropy
  | memcpyFallback
  deriving DecidableEq, Repr

/-- Modelled from the spec: the header fields of a chunk (section 3), missing
with the engine; `method` is the declared method value before it is checked
against the known ones. -/
structure ChunkHeader where
  encoded_length : Nat
  decoded_length : Nat
  method : Nat
  deriving DecidableEq, Repr

/-- Modelled from the spec: the symbols the LZ match engine of section 4.3
consumes, a literal byte or a back-reference (offset, length); missing with the
engine. -/
inductive Token where
  | literal (b : Nat)
  | backref (offset length : Nat)
  deriving DecidableEq, Repr

/-- Modelled from the spec: the parts of the engine that section 9 leaves as a
format-compatibility detail.  `readHeader` is the chunk reader of section 4.1
(the header fields at the cursor and the number of bytes the header occupies),
`knownMethod` the enumeration of known method values, `entropyDecode` the
entropy stage of section 4.2 (the symbols of a payload, or nothing when the
stream is corrupt), `emptyTerminal` the format-defined legitimate empty
terminal chunk of section 4.1.  `failureResidue` is what a failed call leaves
in `dst[0..dst_len)`, about which sections 5 and 6 give no guarantee: from the
compressed buffer, `dst_len` and an index below `dst_len`, either nothing (the
byte is left as it was) or the byte stored there. -/
structure Format where
  readHeader : List Nat → Option (ChunkHeader × Nat)
  knownMethod : Nat → Option Method
  entropyDecode : Method → List Nat → Option (List Token)
  emptyTerminal : ChunkHeader → Bool
  failureResidue : List Nat → Nat → Nat → Option Nat

/-- Modelled from the spec: the state of a run of the engine, the bytes it has
produced (in order, from output position 0) and the error it stopped with, if
any.  The sliding window of section 3 is `written`: append-only, and the only
copy source.  After a failed run `written` is internal to the engine; what
`dst` then holds is not given by it. -/
structure DecodeState where
  written : List Nat
  error : Option DecodeError
  deriving DecidableEq, Repr

/-- Modelled from the spec: the back-reference copy of section 4.3, missing with
the engine.  `length` bytes are produced one at a time in increasing order, each
the byte `offset` positions before the current output position, so a byte
written by this copy is a source for a later byte of the same copy. -/
def copyMatch (offset : Nat) : Nat → List Nat → List Nat
  | 0, out => out
  | l + 1, out => copyMatch offset l (out ++ [out.getD (out.length - offset) 0])

/-- Modelled from the spec: one token of the LZ match engine of section 4.3.  A
literal is emitted; a back-reference is copied.  An offset beyond the bytes
emitted so far is `InvalidBackReference`; offset 0 names no previously decoded
byte (section 3: only earlier output is a copy source) and is rejected the same
way.  A token whose expansion would pass `dst_len` is `OutputOverflow`. -/
def lzToken (dst_len : Nat) (out : List Nat) : Token → Except DecodeError (List Nat)
  | .literal b =>
    if out.length + 1 ≤ dst_len then .ok (out ++ [b]) else .error .OutputOverflow
  | .backref offset length =>
    if offset = 0 ∨ out.length < offset then .error .InvalidBackReference
    else if out.length + length ≤ dst_len then .ok (copyMatch offset length out)
    else .error .OutputOverflow

/-- Modelled from the spec: the LZ match engine of section 4.3 over a symbol
stream; the first failing token is fatal and what was written before it
stays. -/
def lzRun (dst_len : Nat) : List Token → List Nat → DecodeState
  | [], out => ⟨out, none⟩
  | t :: ts, out =>
    match lzToken dst_len out t with
    | .ok out1 => lzRun dst_len ts out1
    | .error e => ⟨out, some e⟩

/-- Modelled from the spec: decoding the payload of one chunk by its method.  A
memcpy chunk is copied verbatim with no entropy or match logic (section 4.3);
raw bytes of an uncompressed chunk go through the match engine as literals;
the other two methods go through the entropy stage first (section 4.2). -/
def decodeChunk (fmt : Format) (dst_len : Nat) (m : Method) (payload out : List Nat) :
    DecodeState :=
  match m with
  | .memcpyFallback =>
    if out.length + payload.length ≤ dst_len then ⟨out ++ payload, none⟩
    else ⟨out, some .OutputOverflow⟩
  | .rawCopy => lzRun dst_len (payload.map Token.literal) out
  | .entropyCoded =>
    match fmt.entropyDecode .entropyCoded payload with
    | none => ⟨out, some .EntropyDecodeError⟩
    | some toks => lzRun dst_len toks out
  | .lzEntropy =>
    match fmt.entropyDecode .lzEntropy payload with
    | none => ⟨out, some .EntropyDecodeError⟩
    | some toks => lzRun dst_len toks out

/-- Modelled from the spec: the pipeline of section 2, chunk reader, then the
decoding of the chunk, repeated over the compressed buffer `src` from the
cursor on, then the assembler of section 4.4.  The chunk reader fails with
`MalformedHeader` when there is no valid header at the cursor, when the method
is not a known one (section 4.1; section 7 also lists `UnsupportedMethod`),
when `encoded_length` or `decoded_length` exceeds what is left of its buffer, or when a header claims zero-length output while more
output is expected (unless the format calls it a legitimate empty terminal
chunk).  A chunk must produce exactly its `decoded_length`, and after the last
chunk the write cursor must equal `dst_len`: otherwise `LengthMismatch`.  The
first argument bounds the number of chunks; a header occupies at least one byte,
so `src.length + 1` is never exhausted. -/
def decodeChunks (fmt : Format) (dst_len : Nat) : Nat → List Nat → List Nat → DecodeState
  | 0, _, out => ⟨out, some .MalformedHeader⟩
  | fuel + 1, src, out =>
    if src = [] then
      if out.length = dst_len then ⟨out, none⟩ else ⟨out, some .LengthMismatch⟩
    else
      match fmt.readHeader src with
      | none => ⟨out, some .MalformedHeader⟩
      | some (h, hsz) =>
        if hsz = 0 ∨ src.length < hsz then ⟨out, some .MalformedHeader⟩
        else
          match fmt.knownMethod h.method with
          | none => ⟨out, some .MalformedHeader⟩
          | some m =>
            if src.length - hsz < h.encoded_length ∨ dst_len - out.length < h.decoded_length then
              ⟨out, some .MalformedHeader⟩
            else if h.decoded_length = 0 ∧ out.length < dst_len ∧ fmt.emptyTerminal h = false then
              ⟨out, some .MalformedHeader⟩
            else
              let r := decodeChunk fmt dst_len m ((src.drop hsz).take h.encoded_length) out
              match r.error with
              | some e => ⟨r.written, some e⟩
              | none =>
                if r.written.length = out.length + h.decoded_length then
                  decodeChunks fmt dst_len fuel ((src.drop hsz).drop h.encoded_length) r.written
                else ⟨r.written, some .LengthMismatch⟩

/-- Modelled from the spec: the engine as the function of section 1, from the
compressed buffer and the expected output length to the reconstructed bytes. -/
def decode (fmt : Format) (src : List Nat) (dst_len : Nat) : DecodeState :=
  decodeChunks fmt dst_len (src.length + 1) src []

/-- Modelled from the spec: the exit value of section 6, the number of bytes
written on success and a negative value on failure.  The spec fixes only the
sign of the failure value (-1 is used) and gives the count as a size, so the
count is not reduced to the width of a C `int` here. -/
def exitValue (r : DecodeState) : Int :=
  match r.error with
  | none => (r.written.length : Int)
  | some _ => -1

/-- Modelled from the spec: the routine `Kraken_Decompress` of `ooz.h`, whose
definition is not among the sources, as the public operation of section 6.  It
reads the compressed buffer `src[0..src_len)` and runs the engine.  On success
`dst[0..dst_len)` holds the bytes the engine produced.  On failure the exit
value is negative and the spec gives no guarantee about the contents of `dst`
beyond never writing outside `dst[0..dst_len)`: each byte of that range is left
as it was or replaced, as `failureResidue` says. -/
def Kraken_Decompress (fmt : Format) : NativeRoutine :=
  fun src src_len dst dst_len mem =>
    let r := decode fmt (readBytes mem src src_len) dst_len
    match r.error with
    | none => (exitValue r, writeBytes mem dst r.written)
    | some _ =>
      (exitValue r, fun x =>
        if dst ≤ x ∧ x < dst + dst_len then
          (fmt.failureResidue (readBytes mem src src_len) dst_len (x - dst)).getD (mem x)
        else mem x)

/-! ## A concrete format for examples -/

/-- A small wire layout used to evaluate the engine at concrete inputs: a header
is the three bytes method, encoded length, decoded length; method values 0 to 3
are raw copy, entropy-coded, LZ+entropy and memcpy. -/
def sampleHeader : List Nat → Option (ChunkHeader × Nat)
  | m :: e :: d :: _ => some (⟨e, d, m⟩, 3)
  | _ => none

/-- The method values of the sample layout. -/
def sampleMethod : Nat → Option Method
  | 0 => some .rawCopy
  | 1 => some .entropyCoded
  | 2 => some .lzEntropy
  | 3 => some .memcpyFallback
  | _ => none

/-- The symbol stream of the sample layout: `0, b` is the literal `b` and
`1, o, l` is the back-reference (offset `o`, length `l`). -/
def sampleTokens : Nat → List Nat → Option (List Token)
  | 0, _ => none
  | _ + 1, [] => some []
  | n + 1, 0 :: b :: rest => (sampleTokens n rest).map (Token.literal b :: ·)
  | n + 1, 1 :: o :: l :: rest => (sampleTokens n rest).map (Token.backref o l :: ·)
  | _ + 1, _ => none

/-- The sample format; a failed call leaves `dst` as it was. -/
def sampleFormat : Format where
  readHeader := sampleHeader
  knownMethod := sampleMethod
  entropyDecode := fun _ payload => sampleTokens (payload.length + 1) payload
  emptyTerminal := fun _ => false
  failureResidue := fun _ _ _ => none

/-- A memory holding the bytes `bs` from address 0 on and 0 elsewhere. -/
def memOf (bs : List Nat) : Mem := fun a => bs.getD a 0

end PhotonBlue.Ooz

/-! ## Theorems about the shim, for every native routine -/

namespace PhotonBlue.Ooz.Kraken

theorem elementAddress_nonempty (a : ManagedArray) (h : 0 < a.length) :
    elementAddress (some a) 0 = .ok a.base := by
  simp [elementAddress, h]

theorem elementAddress_empty (a : ManagedArray) (h : a.length = 0) :
    elementAddress (some a) 0 = .error .IndexOutOfRange := by
  simp [elementAddress, h]

/-- Whatever the handles are, a call either raises while pinning, leaving the
state as it was, or reaches the native routine with two element addresses. -/
theorem Decompress_cases (K : NativeRoutine) (src dst : Option ManagedArray)
    (src_len dst_len : Nat) (w : World) :
    (∃ e, Decompress K src src_len dst dst_len w = (.error e, w)) ∨
    (∃ s d, elementAddress src 0 = .ok s ∧ elementAddress dst 0 = .ok d ∧
      Decompress K src src_len dst dst_len w =
        (.ok (K s src_len d dst_len w.mem).1,
         { mem := (K s src_len d dst_len w.mem).2,
           calls := w.calls ++ [⟨s, src_len, d, dst_len⟩] })) := by
  unfold Decompress
  cases hs : elementAddress src 0 with
  | error e => exact Or.inl ⟨e, rfl⟩
  | ok s =>
    cases hd : elementAddress dst 0 with
    | error e => exact Or.inl ⟨e, rfl⟩
    | ok d => exact Or.inr ⟨s, d, rfl, rfl, rfl⟩

/-- A null handle raises `NullReference` on line 6 or line 7, before the native
routine is called. -/
theorem Decompress_null (K : NativeRoutine) (src dst : Option ManagedArray)
    (src_len dst_len : Nat) (w : World)
    (h : src = none ∨ (dst = none ∧ ∃ s, elementAddress src 0 = .ok s)) :
    Decompress K src src_len dst dst_len w = (.error .NullReference, w) := by
  rcases h with h | ⟨h, s, hs⟩
  · subst h; rfl
  · subst h
    unfold Decompress
    rw [hs]
    rfl

/-- C1. For non-empty managed arrays `src` and `dst` and any two lengths, the shim
returns exactly the integer the native routine returns on (address of `src[0]`,
`src_len`, address of `dst[0]`, `dst_len`), leaves memory exactly as that routine
left it, and the call log grows by exactly that one call. -/
theorem Decompress_forwards_once (K : NativeRoutine) (src dst : ManagedArray)
    (src_len dst_len : Nat) (w : World)
    (hsrc : 0 < src.length) (hdst : 0 < dst.length) :
    Decompress K (some src) src_len (some dst) dst_len w =
      (.ok (K src.base src_len dst.base dst_len w.mem).1,
       { mem := (K src.base src_len dst.base dst_len w.mem).2,
         calls := w.calls ++ [⟨src.base, src_len, dst.base, dst_len⟩] }) := by
  simp [Decompress, elementAddress, hsrc, hdst]

/-- Witness of C1: a routine that stores 42 at `dst[0]` and returns 7, called
through the shim with lengths that are not those of the arrays. -/
theorem Decompress_forwards_once_witness :
    (0 < (⟨0, 3⟩ : ManagedArray).length ∧ 0 < (⟨8, 2⟩ : ManagedArray).length) ∧
    Decompress (fun _ _ d _ m => (7, writeBytes m d [42])) (some ⟨0, 3⟩) 5 (some ⟨8, 2⟩) 9
        ⟨memOf [1, 2, 3], []⟩ =
      (.ok 7, { mem := writeBytes (memOf [1, 2, 3]) 8 [42], calls := [⟨0, 5, 8, 9⟩] }) :=
  ⟨⟨by decide, by decide⟩,
   Decompress_forwards_once (fun _ _ d _ m => (7, writeBytes m d [42])) ⟨0, 3⟩ ⟨8, 2⟩ 5 9
     ⟨memOf [1, 2, 3], []⟩ (by decide) (by decide)⟩

/-- C9, as stated, fails: with a null `src` and a `dst` of zero elements the
call raises `NullReference` on line 6, whatever the native routine is; `dst` has
zero elements and yet the error is not `IndexOutOfRange`. -/
theorem Decompress_null_src_empty_dst :
    (⟨16, 0⟩ : ManagedArray).length = 0 ∧
    (∀ K : NativeRoutine,
      Decompress K none 0 (some ⟨16, 0⟩) 0 ⟨memOf [], []⟩ =
        (.error .NullReference, ⟨memOf [], []⟩)) ∧
    ¬ ∃ K : NativeRoutine,
      (Decompress K none 0 (some ⟨16, 0⟩) 0 ⟨memOf [], []⟩).1 = .error .IndexOutOfRange := by
  refine ⟨rfl, fun _ => rfl, ?_⟩
  rintro ⟨K, h⟩
  have h2 : (Decompress K none 0 (some ⟨16, 0⟩) 0 ⟨memOf [], []⟩).1 =
      .error .NullReference := rfl
  rw [h2] at h
  cases h

/-- C9, amended. For all handles `src` and `dst`, null or not, and any lengths:
the call raises `IndexOutOfRange` if and only if `src` is an array of zero
elements, or `src` is a non-empty array and `dst` is an array of zero elements;
it raises `NullReference` if and only if `src` is null, or `src` is a non-empty
array and `dst` is null.  Either way the state is unchanged (the native routine
was not called and `dst` holds what it held).  For two arrays the first
condition is: `src` or `dst` has zero elements.  With an empty `dst` the call
never returns a value, 0 included. -/
theorem Decompress_index_error_iff (K : NativeRoutine) (src dst : Option ManagedArray)
    (src_len dst_len : Nat) (w : World) :
    ((Decompress K src src_len dst dst_len w).1 = .error .IndexOutOfRange ↔
      ((∃ a, src = some a ∧ a.length = 0) ∨
        (∃ a b, src = some a ∧ 0 < a.length ∧ dst = some b ∧ b.length = 0))) ∧
    ((Decompress K src src_len dst dst_len w).1 = .error .NullReference ↔
      (src = none ∨ (∃ a, src = some a ∧ 0 < a.length ∧ dst = none))) ∧
    (∀ e, (Decompress K src src_len dst dst_len w).1 = .error e →
      Decompress K src src_len dst dst_len w = (.error e, w)) ∧
    (∀ a b, src = some a → dst = some b →
      ((Decompress K src src_len dst dst_len w).1 = .error .IndexOutOfRange ↔
        (a.length = 0 ∨ b.length = 0))) ∧
    (∀ b, dst = some b → b.length = 0 →
      ∀ v : Int, (Decompress K src src_len dst dst_len w).1 ≠ .ok v) := by
  cases src with
  | none =>
    refine ⟨?_, ?_, ?_, ?_, ?_⟩ <;> simp [Decompress, elementAddress]
  | some a =>
    by_cases ha : a.length = 0
    · refine ⟨?_, ?_, ?_, ?_, ?_⟩
      · simp [Decompress, elementAddress, ha]
      · simp [Decompress, elementAddress, ha]
      · simp [Decompress, elementAddress, ha]
      · intro a1 b h _
        cases h
        simp [Decompress, elementAddress, ha]
      · simp [Decompress, elementAddress, ha]
    · have hpos : 0 < a.length := Nat.pos_of_ne_zero ha
      cases dst with
      | none =>
        refine ⟨?_, ?_, ?_, ?_, ?_⟩ <;> simp [Decompress, elementAddress, ha, hpos]
      | some b =>
        by_cases hb : b.length = 0
        · refine ⟨?_, ?_, ?_, ?_, ?_⟩ <;> simp [Decompress, elementAddress, ha, hpos, hb]
        · have hbpos : 0 < b.length := Nat.pos_of_ne_zero hb
          refine ⟨?_, ?_, ?_, ?_, ?_⟩ <;>
            simp [Decompress, elementAddress, ha, hpos, hb, hbpos]

/-- C10. For non-empty `src` and `dst` and any `src_len` and `dst_len`, larger
than the arrays or not, the call is not rejected: it returns what the native
routine returns when applied to exactly (address of `src[0]`, `src_len`,
address of `dst[0]`, `dst_len`), memory is what that application left, and the
one logged call carries the two lengths of the caller.  The outcome is the same
for arrays of any other non-zero lengths at the same addresses: the lengths of
the arrays are never compared with `src_len` and `dst_len`. -/
theorem Decompress_lengths_unchecked (K : NativeRoutine) (src dst : ManagedArray)
    (src_len dst_len : Nat) (w : World)
    (hsrc : 0 < src.length) (hdst : 0 < dst.length) :
    (Decompress K (some src) src_len (some dst) dst_len w).1 =
      .ok (K src.base src_len dst.base dst_len w.mem).1 ∧
    (Decompress K (some src) src_len (some dst) dst_len w).2.mem =
      (K src.base src_len dst.base dst_len w.mem).2 ∧
    (Decompress K (some src) src_len (some dst) dst_len w).2.calls =
      w.calls ++ [⟨src.base, src_len, dst.base, dst_len⟩] ∧
    (∀ n m : Nat, 0 < n → 0 < m →
      Decompress K (some ⟨src.base, n⟩) src_len (some ⟨dst.base, m⟩) dst_len w =
        Decompress K (some src) src_len (some dst) dst_len w) := by
  refine ⟨?_, ?_, ?_, ?_⟩
  · simp [Decompress, elementAddress, hsrc, hdst]
  · simp [Decompress, elementAddress, hsrc, hdst]
  · simp [Decompress, elementAddress, hsrc, hdst]
  · intro n m hn hm
    simp [Decompress, elementAddress, hsrc, hdst, hn, hm]

/-- Witness of C10: arrays of 3 and 2 elements, called with `src_len = 1000` and
`dst_len = 2000`; the routine returns the sum of the two lengths it received
and stores the first of them at `dst[0]`. -/
theorem Decompress_lengths_unchecked_witness :
    ((⟨0, 3⟩ : ManagedArray).length < 1000 ∧ (⟨8, 2⟩ : ManagedArray).length < 2000) ∧
    (Decompress (fun _ sl d dl m => ((sl : Int) + dl, writeBytes m d [sl])) (some ⟨0, 3⟩) 1000
        (some ⟨8, 2⟩) 2000 ⟨memOf [], []⟩).1 = .ok 3000 ∧
    (Decompress (fun _ sl d dl m => ((sl : Int) + dl, writeBytes m d [sl])) (some ⟨0, 3⟩) 1000
        (some ⟨8, 2⟩) 2000 ⟨memOf [], []⟩).2.mem 8 = 1000 ∧
    (Decompress (fun _ sl d dl m => ((sl : Int) + dl, writeBytes m d [sl])) (some ⟨0, 3⟩) 1000
        (some ⟨8, 2⟩) 2000 ⟨memOf [], []⟩).2.calls = [⟨0, 1000, 8, 2000⟩] :=
  have h := Decompress_lengths_unchecked
    (fun _ sl d dl m => ((sl : Int) + dl, writeBytes m d [sl]))
    ⟨0, 3⟩ ⟨8, 2⟩ 1000 2000 ⟨memOf [], []⟩ (by decide) (by decide)
  ⟨⟨by decide, by decide⟩, h.1, congrFun h.2.1 8, h.2.2.1⟩

/-- C3, at the empty sequence. With a `dst` of length 0 and `dst_len = 0`, the
call raises `IndexOutOfRange` whatever the compressed buffer and the native
routine are: it does not succeed, the routine is not called, and no value is
returned. -/
theorem Decompress_empty_roundtrip_raises (K : NativeRoutine) (src : ManagedArray)
    (src_len dst_base : Nat) (w : World) :
    Decompress K (some src) src_len (some ⟨dst_base, 0⟩) 0 w = (.error .IndexOutOfRange, w) := by
  by_cases hs : src.length = 0
  · simp [Decompress, elementAddress, hs]
  · simp [Decompress, elementAddress, hs, Nat.pos_of_ne_zero hs]

end PhotonBlue.Ooz.Kraken

/-! ## Lemmas about memory -/

namespace PhotonBlue.Ooz

theorem readBytes_length (mem : Mem) (a n : Nat) : (readBytes mem a n).length = n := by
  simp [readBytes]

theorem readBytes_congr (m1 m2 : Mem) (a n : Nat)
    (h : ∀ i, i < n → m2 (a + i) = m1 (a + i)) : readBytes m2 a n = readBytes m1 a n := by
  unfold readBytes
  apply List.map_congr_left
  intro i hi
  exact h i (List.mem_range.mp hi)

theorem writeBytes_outside (mem : Mem) (a : Nat) (bs : List Nat) (x : Nat)
    (h : x < a ∨ a + bs.length ≤ x) : writeBytes mem a bs x = mem x := by
  unfold writeBytes
  rw [if_neg]
  omega

theorem writeBytes_inside (mem : Mem) (a : Nat) (bs : List Nat) (i : Nat)
    (h : i < bs.length) : writeBytes mem a bs (a + i) = bs.getD i 0 := by
  unfold writeBytes
  rw [if_pos (by omega)]
  simp

theorem readBytes_writeBytes (mem : Mem) (a : Nat) (bs : List Nat) :
    readBytes (writeBytes mem a bs) a bs.length = bs := by
  apply List.ext_getElem
  · simp [readBytes]
  · intro i h1 h2
    simp only [readBytes, List.getElem_map, List.getElem_range]
    rw [writeBytes_inside mem a bs i h2]
    simp [List.getD_eq_getElem?_getD, h2]

/-! ## Lemmas about the back-reference copy -/

theorem copyMatch_length (offset : Nat) (l : Nat) (out : List Nat) :
    (copyMatch offset l out).length = out.length + l := by
  induction l generalizing out with
  | zero => simp [copyMatch]
  | succ l ih => simp [copyMatch, ih]; omega

end PhotonBlue.Ooz

/-! ## Lemmas about the engine -/

namespace PhotonBlue.Ooz

theorem lzToken_bound (dst_len : Nat) (out out1 : List Nat) (t : Token)
    (h : lzToken dst_len out t = .ok out1) : out1.length ≤ dst_len := by
  cases t with
  | literal b =>
    simp only [lzToken] at h
    split at h
    · cases h; simpa using ‹_›
    · cases h
  | backref o l =>
    simp only [lzToken] at h
    split at h
    · cases h
    · split at h
      · cases h; rw [copyMatch_length]; assumption
      · cases h

theorem lzRun_bound (dst_len : Nat) (ts : List Token) (out : List Nat)
    (h : out.length ≤ dst_len) : (lzRun dst_len ts out).written.length ≤ dst_len := by
  induction ts generalizing out with
  | nil => simpa [lzRun] using h
  | cons t ts ih =>
    simp only [lzRun]
    cases ht : lzToken dst_len out t with
    | ok out1 => exact ih out1 (lzToken_bound dst_len out out1 t ht)
    | error e => simpa using h

theorem decodeChunk_bound (fmt : Format) (dst_len : Nat) (m : Method) (payload out : List Nat)
    (h : out.length ≤ dst_len) :
    (decodeChunk fmt dst_len m payload out).written.length ≤ dst_len := by
  cases m with
  | memcpyFallback =>
    simp only [decodeChunk]
    split
    · simpa using ‹_›
    · simpa using h
  | rawCopy => exact lzRun_bound dst_len _ out h
  | entropyCoded =>
    simp only [decodeChunk]
    split
    · simpa using h
    · exact lzRun_bound dst_len _ out h
  | lzEntropy =>
    simp only [decodeChunk]
    split
    · simpa using h
    · exact lzRun_bound dst_len _ out h

/-- The engine never has more than `dst_len` bytes written, on success or on
failure. -/
theorem decodeChunks_bound (fmt : Format) (dst_len fuel : Nat) (src out : List Nat)
    (h : out.length ≤ dst_len) :
    (decodeChunks fmt dst_len fuel src out).written.length ≤ dst_len := by
  induction fuel generalizing src out with
  | zero => simpa [decodeChunks] using h
  | succ fuel ih =>
    simp only [decodeChunks]
    have hc := fun m p => decodeChunk_bound fmt dst_len m p out h
    repeat (first | exact h | exact hc _ _ | exact ih _ _ (hc _ _) | split)

/-- The assembler: a run that ends without error has written exactly `dst_len`
bytes. -/
theorem decodeChunks_success (fmt : Format) (dst_len fuel : Nat) (src out : List Nat) :
    (decodeChunks fmt dst_len fuel src out).error = none →
    (decodeChunks fmt dst_len fuel src out).written.length = dst_len := by
  induction fuel generalizing src out with
  | zero => simp [decodeChunks]
  | succ fuel ih =>
    simp only [decodeChunks]
    repeat' split
    all_goals first
      | exact ih _ _
      | (intro h; first | assumption | exact absurd h (Option.some_ne_none _))

/-- The bound on the number of chunks is never the reason a run stops: any two
bounds above the length of the compressed buffer give the same run. -/
theorem decodeChunks_fuel (fmt : Format) (dst_len fuel : Nat) (src out : List Nat)
    (h : src.length < fuel) :
    decodeChunks fmt dst_len fuel src out = decodeChunks fmt dst_len (fuel + 1) src out := by
  induction fuel generalizing src out with
  | zero => omega
  | succ fuel ih =>
    rw [decodeChunks, decodeChunks]
    split
    · rfl
    · split
      · rfl
      · split
        · rfl
        · split
          · rfl
          · split
            · rfl
            · split
              · rfl
              · simp only []
                split
                · rfl
                · split
                  · apply ih
                    simp only [List.length_drop]
                    omega
                  · rfl

theorem decode_bound (fmt : Format) (src : List Nat) (dst_len : Nat) :
    (decode fmt src dst_len).written.length ≤ dst_len :=
  decodeChunks_bound fmt dst_len _ src [] (Nat.zero_le _)

theorem decode_success (fmt : Format) (src : List Nat) (dst_len : Nat)
    (h : (decode fmt src dst_len).error = none) :
    (decode fmt src dst_len).written.length = dst_len :=
  decodeChunks_success fmt dst_len _ src [] h

end PhotonBlue.Ooz

/-! ## The window is append-only -/

namespace PhotonBlue.Ooz

end PhotonBlue.Ooz

/-! ## The engine behind the shim -/

namespace PhotonBlue.Ooz

theorem Kraken_Decompress_exit (fmt : Format) (s src_len d dst_len : Nat) (mem : Mem) :
    (Kraken_Decompress fmt s src_len d dst_len mem).1 =
      exitValue (decode fmt (readBytes mem s src_len) dst_len) := by
  simp only [Kraken_Decompress]
  split <;> rfl

theorem Kraken_Decompress_success (fmt : Format) (s src_len d dst_len : Nat) (mem : Mem)
    (h : (decode fmt (readBytes mem s src_len) dst_len).error = none) :
    Kraken_Decompress fmt s src_len d dst_len mem =
      (((decode fmt (readBytes mem s src_len) dst_len).written.length : Int),
        writeBytes mem d (decode fmt (readBytes mem s src_len) dst_len).written) := by
  simp only [Kraken_Decompress, h, exitValue]

/-- A buffer that holds exactly one chunk whose decoding succeeds with `dst_len`
bytes decodes to those bytes. -/
theorem decode_single_chunk (fmt : Format) (bytes : List Nat) (dst_len : Nat)
    (hdr : ChunkHeader) (hsz : Nat) (m : Method)
    (h1 : fmt.readHeader bytes = some (hdr, hsz))
    (h2 : 0 < hsz) (h3 : hsz ≤ bytes.length)
    (h4 : fmt.knownMethod hdr.method = some m)
    (h5 : hdr.encoded_length = bytes.length - hsz)
    (h6 : hdr.decoded_length = dst_len)
    (h7 : (decodeChunk fmt dst_len m (bytes.drop hsz) []).error = none)
    (h8 : (decodeChunk fmt dst_len m (bytes.drop hsz) []).written.length = dst_len) :
    decode fmt bytes dst_len = ⟨(decodeChunk fmt dst_len m (bytes.drop hsz) []).written, none⟩ := by
  have hne : bytes ≠ [] := by
    intro h; rw [h] at h3; simp at h3; omega
  have hpay : (bytes.drop hsz).take hdr.encoded_length = bytes.drop hsz := by
    rw [h5]; apply List.take_of_length_le; simp
  have hrest : (bytes.drop hsz).drop hdr.encoded_length = [] := by
    rw [h5]; apply List.drop_of_length_le; simp
  obtain ⟨n, hn⟩ : ∃ n, bytes.length = n + 1 := ⟨bytes.length - 1, by omega⟩
  unfold decode
  rw [hn, decodeChunks]
  simp only [hne, if_false, h1, h4, hpay, hrest, h7, h6, h8, List.length_nil]
  rw [if_neg (by omega), if_neg (by omega), if_neg (by omega)]
  simp [decodeChunks, h8]

end PhotonBlue.Ooz

namespace PhotonBlue.Ooz.Kraken

/-- C2, at two failing inputs. A call with an empty `src` (and a `dst` of four
elements, `dst_len = 4`) raises `IndexOutOfRange` on line 6 whatever the native
routine is, and no negative value is returned; a call with an empty `dst` and
`dst_len = 0`, where success would be a result of 0 bytes, raises on line 7 and
returns no value either. -/
theorem Decompress_empty_src_no_negative_value :
    (∀ K : NativeRoutine,
      (Decompress K (some ⟨0, 0⟩) 0 (some ⟨16, 4⟩) 4 ⟨memOf [], []⟩).1 =
        .error .IndexOutOfRange) ∧
    (¬ ∃ K : NativeRoutine, ∃ v : Int, v < 0 ∧
      (Decompress K (some ⟨0, 0⟩) 0 (some ⟨16, 4⟩) 4 ⟨memOf [], []⟩).1 = .ok v) ∧
    (∀ K : NativeRoutine,
      (Decompress K (some ⟨0, 3⟩) 3 (some ⟨16, 0⟩) 0 ⟨memOf [3, 0, 0], []⟩).1 =
        .error .IndexOutOfRange) ∧
    (¬ ∃ K : NativeRoutine, ∃ v : Int,
      (Decompress K (some ⟨0, 3⟩) 3 (some ⟨16, 0⟩) 0 ⟨memOf [3, 0, 0], []⟩).1 = .ok v) := by
  have h : ∀ K : NativeRoutine,
      (Decompress K (some ⟨0, 0⟩) 0 (some ⟨16, 4⟩) 4 ⟨memOf [], []⟩).1 =
        .error .IndexOutOfRange := fun _ => rfl
  have h2 : ∀ K : NativeRoutine,
      (Decompress K (some ⟨0, 3⟩) 3 (some ⟨16, 0⟩) 0 ⟨memOf [3, 0, 0], []⟩).1 =
        .error .IndexOutOfRange := fun _ => rfl
  refine ⟨h, ?_, h2, ?_⟩
  · rintro ⟨K, v, _, hv⟩
    rw [h K] at hv
    cases hv
  · rintro ⟨K, v, hv⟩
    rw [h2 K] at hv
    cases hv

/-- The exit value for the calls that reach the engine, with the engine behind
the shim: either the call raises while pinning and the state is as it was, or
it returns the exit value of the engine.  That value is non-negative and equal
to the number of bytes written, which is `dst_len` and which `dst[0..dst_len)`
then holds, when the engine succeeds; it is negative when the engine fails; so
a returned 0 means success with 0 bytes. -/
theorem Decompress_exit_value (fmt : Format) (src dst : Option ManagedArray)
    (src_len dst_len : Nat) (w : World) :
    (∃ e, Decompress (Kraken_Decompress fmt) src src_len dst dst_len w = (.error e, w)) ∨
    (∃ s d, elementAddress src 0 = .ok s ∧ elementAddress dst 0 = .ok d ∧
      (Decompress (Kraken_Decompress fmt) src src_len dst dst_len w).1 =
        .ok (exitValue (decode fmt (readBytes w.mem s src_len) dst_len)) ∧
      ((decode fmt (readBytes w.mem s src_len) dst_len).error = none →
        0 ≤ exitValue (decode fmt (readBytes w.mem s src_len) dst_len) ∧
        exitValue (decode fmt (readBytes w.mem s src_len) dst_len) =
          ((decode fmt (readBytes w.mem s src_len) dst_len).written.length : Int) ∧
        (decode fmt (readBytes w.mem s src_len) dst_len).written.length = dst_len ∧
        readBytes (Decompress (Kraken_Decompress fmt) src src_len dst dst_len w).2.mem d dst_len =
          (decode fmt (readBytes w.mem s src_len) dst_len).written) ∧
      ((decode fmt (readBytes w.mem s src_len) dst_len).error ≠ none →
        exitValue (decode fmt (readBytes w.mem s src_len) dst_len) < 0) ∧
      ((Decompress (Kraken_Decompress fmt) src src_len dst dst_len w).1 = .ok 0 →
        (decode fmt (readBytes w.mem s src_len) dst_len).error = none ∧ dst_len = 0)) := by
  rcases Decompress_cases (Kraken_Decompress fmt) src dst src_len dst_len w with
    h | ⟨s, d, hs, hd, h⟩
  · exact Or.inl h
  · right
    refine ⟨s, d, hs, hd, ?_⟩
    have hsucc := decode_success fmt (readBytes w.mem s src_len) dst_len
    have hK := Kraken_Decompress_success fmt s src_len d dst_len w.mem
    rw [h]
    simp only [Kraken_Decompress_exit]
    generalize decode fmt (readBytes w.mem s src_len) dst_len = r at hsucc hK ⊢
    obtain ⟨wr, err⟩ := r
    cases err with
    | none =>
      have hl : wr.length = dst_len := hsucc rfl
      refine ⟨trivial, fun _ => ⟨by simp [exitValue], by simp [exitValue], hl, ?_⟩,
        fun h => absurd rfl h, ?_⟩
      · rw [hK rfl, ← hl]; exact readBytes_writeBytes _ _ _
      · intro h0
        simp [exitValue] at h0
        exact ⟨rfl, by rw [← hl, h0]; rfl⟩
    | some e =>
      refine ⟨trivial, fun h => by simp at h, fun _ => by simp [exitValue], ?_⟩
      intro h0
      simp [exitValue] at h0

/-- The memcpy scenario for a payload of at least one byte, with the engine
behind the shim: when `src` holds exactly one memcpy chunk whose
`encoded_length` and `decoded_length` are both `n` and `dst` has `n ≥ 1`
elements, the call with `dst_len = n` returns `n` and `dst` holds the
payload. -/
theorem Decompress_memcpy_chunk (fmt : Format) (src dst : ManagedArray) (w : World)
    (hdr : ChunkHeader) (hsz n : Nat)
    (h1 : fmt.readHeader (contents w.mem src) = some (hdr, hsz))
    (h2 : 0 < hsz)
    (h4 : fmt.knownMethod hdr.method = some .memcpyFallback)
    (h5 : hdr.encoded_length = n) (h6 : hdr.decoded_length = n)
    (h7 : src.length = hsz + n)
    (h8 : dst.length = n) (h9 : 0 < n) :
    (Decompress (Kraken_Decompress fmt) (some src) src.length (some dst) n w).1 = .ok (n : Int) ∧
    contents (Decompress (Kraken_Decompress fmt) (some src) src.length (some dst) n w).2.mem dst =
      (contents w.mem src).drop hsz := by
  have hlen : (contents w.mem src).length = src.length := readBytes_length _ _ _
  have hpl : ((contents w.mem src).drop hsz).length = n := by
    rw [List.length_drop, hlen]; omega
  have hchunk : decodeChunk fmt n .memcpyFallback ((contents w.mem src).drop hsz) [] =
      ⟨(contents w.mem src).drop hsz, none⟩ := by
    simp [decodeChunk, hpl]
  have hdec := decode_single_chunk fmt (contents w.mem src) n hdr hsz .memcpyFallback h1 h2
    (by omega) h4 (by omega) h6 (by rw [hchunk]) (by rw [hchunk]; exact hpl)
  rw [hchunk] at hdec
  have hsrc : 0 < src.length := by omega
  have hdec2 : decode fmt (readBytes w.mem src.base src.length) n =
      ⟨(contents w.mem src).drop hsz, none⟩ := hdec
  have hK := Kraken_Decompress_success fmt src.base src.length dst.base n w.mem
    (by rw [hdec2])
  rw [hdec2] at hK
  have hrun : Decompress (Kraken_Decompress fmt) (some src) src.length (some dst) n w =
      (.ok (n : Int), { mem := writeBytes w.mem dst.base ((contents w.mem src).drop hsz),
                        calls := w.calls ++ [⟨src.base, src.length, dst.base, n⟩] }) := by
    simp [Decompress, elementAddress, hsrc, h8, h9, hK, hpl]
  rw [hrun]
  refine ⟨rfl, ?_⟩
  show readBytes (writeBytes w.mem dst.base ((contents w.mem src).drop hsz)) dst.base dst.length = _
  rw [h8, ← hpl]
  exact readBytes_writeBytes _ _ _

/-- C7, at the empty payload. In the sample format the three bytes 3, 0, 0 are
one memcpy chunk with `encoded_length = decoded_length = 0`.  With `dst` the
array of 0 elements and `dst_len = 0` the call raises `IndexOutOfRange`,
although the engine itself, handed the same arguments, returns 0. -/
theorem Decompress_memcpy_empty_payload_raises :
    sampleFormat.readHeader (contents (memOf [3, 0, 0]) ⟨0, 3⟩) = some (⟨0, 0, 3⟩, 3) ∧
    sampleFormat.knownMethod 3 = some .memcpyFallback ∧
    Decompress (Kraken_Decompress sampleFormat) (some ⟨0, 3⟩) 3 (some ⟨16, 0⟩) 0
        ⟨memOf [3, 0, 0], []⟩ = (.error .IndexOutOfRange, ⟨memOf [3, 0, 0], []⟩) ∧
    (Kraken_Decompress sampleFormat 0 3 16 0 (memOf [3, 0, 0])).1 = 0 :=
  ⟨rfl, rfl, rfl, rfl⟩

end PhotonBlue.Ooz.Kraken

namespace PhotonBlue.Ooz.Kraken

end PhotonBlue.Ooz.Kraken
